import Mathlib

/-!
Verification of the Dremio MCP client (src/dremio-client.ts, the variant
with identifier escaping and per-segment catalog path encoding, whose
compiled build output ships with the package).

Strings are embedded as `List Char`; the JavaScript string operations used
by the source (trim, regex replacement, includes, toLowerCase) are
translated into structurally recursive functions so that every definition
is executable and kernel-reducible.
-/

/-- Whitespace as recognised by the JavaScript regexp class backslash-s and
by String.prototype.trim: ASCII whitespace plus the Unicode space
separators, NBSP, BOM and the line separators. -/
def isJsWhitespace (c : Char) : Bool :=
  [9, 10, 11, 12, 13, 32, 160, 0x1680].contains c.toNat ||
  (0x2000 ≤ c.toNat && c.toNat ≤ 0x200a) ||
  [0x2028, 0x2029, 0x202f, 0x205f, 0x3000, 0xfeff].contains c.toNat

/-- Model of String.prototype.trim: drop leading and trailing whitespace. -/
def jsTrim (cs : List Char) : List Char :=
  ((cs.dropWhile isJsWhitespace).reverse.dropWhile isJsWhitespace).reverse

/-- Whether the list contains a newline character. -/
def hasNl : List Char → Bool
  | [] => false
  | c :: r => if c = '\n' then true else hasNl r

/-- The characters strictly before the first newline. -/
def upToNl : List Char → List Char
  | [] => []
  | c :: r => if c = '\n' then [] else c :: upToNl r

/-- The characters strictly after the first newline ([] if none). -/
def afterNl : List Char → List Char
  | [] => []
  | c :: r => if c = '\n' then r else afterNl r

/-- One global-replace pass of the source regexp that rewrites a
double-dash comment together with its terminating newline to a bare
newline.  The regexp only matches when a newline follows the double dash,
so a trailing comment that reaches the end of the input is left in place
(mode `true` means: currently skipping a comment body). -/
def stripLCAux : Bool → List Char → List Char
  | true, [] => []
  | true, c :: r => if c = '\n' then c :: stripLCAux false r else stripLCAux true r
  | false, [] => []
  | false, [c] => [c]
  | false, c1 :: c2 :: r =>
    if c1 = '-' && c2 = '-' then
      (if hasNl r then stripLCAux true r else c1 :: c2 :: r)
    else c1 :: stripLCAux false (c2 :: r)

/-- Whether the list contains the two-character close marker of a block
comment. -/
def hasBlockClose : List Char → Bool
  | [] => false
  | [_] => false
  | c1 :: c2 :: r => if c1 = '*' && c2 = '/' then true else hasBlockClose (c2 :: r)

/-- One global-replace pass of the source regexp that deletes a lazily
matched (hence non-nested) slash-star block comment.  The regexp only
matches when a close marker exists, so an unterminated open marker is left
in place (mode `true` means: currently skipping a comment body). -/
def stripBCAux : Bool → List Char → List Char
  | true, [] => []
  | true, [_] => []
  | true, c1 :: c2 :: r =>
    if c1 = '*' && c2 = '/' then stripBCAux false r else stripBCAux true (c2 :: r)
  | false, [] => []
  | false, [c] => [c]
  | false, c1 :: c2 :: r =>
    if c1 = '/' && c2 = '*' then
      (if hasBlockClose r then stripBCAux true r else c1 :: c2 :: r)
    else c1 :: stripBCAux false (c2 :: r)

/-- The test performed by the anchored case-insensitive regexp: the text
starts with the keyword SELECT followed by one whitespace character. -/
def startsWithSelectWs : List Char → Bool
  | c1 :: c2 :: c3 :: c4 :: c5 :: c6 :: c7 :: _ =>
    c1.toLower = 's' && c2.toLower = 'e' && c3.toLower = 'l' && c4.toLower = 'e' &&
    c5.toLower = 'c' && c6.toLower = 't' && isJsWhitespace c7
  | _ => false

/-- Embedding of the exported function isSelectQuery: trim, strip the
newline-terminated double-dash comments, strip the block comments, trim
again, and test for the SELECT keyword followed by whitespace. -/
def isSelectQueryL (sql : List Char) : Bool :=
  startsWithSelectWs (jsTrim (stripBCAux false (stripLCAux false (jsTrim sql))))

/-- String-level wrapper of the embedded isSelectQuery. -/
def isSelectQuery (sql : String) : Bool :=
  isSelectQueryL sql.data

/-- Truncate one line at the first double dash (deleting the comment up to
the end of the line). -/
def truncDash : List Char → List Char
  | [] => []
  | [c] => [c]
  | c1 :: c2 :: r => if c1 = '-' && c2 = '-' then [] else c1 :: truncDash (c2 :: r)

/-- Split into lines at every newline (the result is always nonempty). -/
def splitNl : List Char → List (List Char)
  | [] => [[]]
  | c :: r =>
    if c = '\n' then [] :: splitNl r
    else
      match splitNl r with
      | [] => [[c]]
      | h :: t => (c :: h) :: t

/-- Rejoin lines with a newline between consecutive lines. -/
def joinNl : List (List Char) → List Char
  | [] => []
  | [l] => l
  | l :: ls => l ++ '\n' :: joinNl ls

/-- Apply a function to every element except the last. -/
def mapInit (f : List Char → List Char) : List (List Char) → List (List Char)
  | [] => []
  | [l] => [l]
  | l :: ls => f l :: mapInit f ls

/-- Modelled from the claim wording: strip ALL double-dash-to-end-of-line
comments (including a trailing comment that is not newline-terminated),
then strip the non-nested block comments, trim, and test for SELECT
followed by whitespace.  Formalises claim C1 as stated. -/
def isSelectQuerySpecClaimL (sql : List Char) : Bool :=
  startsWithSelectWs
    (jsTrim (stripBCAux false (joinNl ((splitNl (jsTrim sql)).map truncDash))))

/-- String-level wrapper of the claim C1 reference predicate. -/
def isSelectQuerySpecClaim (sql : String) : Bool :=
  isSelectQuerySpecClaimL sql.data

/-- The amended reference predicate: identical to the claim reference
except that a double-dash comment is only stripped when it is terminated
by a newline, i.e. the final (unterminated) line keeps any trailing
double-dash text.  Stated per line, independently of the replace-scan used
by the implementation. -/
def isSelectQuerySpecAmendedL (sql : List Char) : Bool :=
  startsWithSelectWs
    (jsTrim (stripBCAux false (joinNl (mapInit truncDash (splitNl (jsTrim sql))))))

/-- String-level wrapper of the amended C1 reference predicate. -/
def isSelectQuerySpecAmended (sql : String) : Bool :=
  isSelectQuerySpecAmendedL sql.data

/-- Join chunks with a single separator character between consecutive
chunks (models Array.prototype.join with a one-character separator). -/
def joinSep (sep : Char) : List (List Char) → List Char
  | [] => []
  | [l] => l
  | l :: ls => l ++ sep :: joinSep sep ls

/-- The characters encodeURIComponent leaves unencoded:
letters, digits, dash, underscore, dot, bang, tilde, star, quote, parens. -/
def isUriUnreserved (c : Char) : Bool :=
  c.isAlphanum || ['-', '_', '.', '!', '~', '*', '\x27', '(', ')'].contains c

/-- Uppercase hexadecimal digit for a value below 16. -/
def hexDigit (n : Nat) : Char :=
  if n < 10 then Char.ofNat (48 + n) else Char.ofNat (55 + n)

/-- UTF-8 byte sequence of a character (1 to 4 bytes). -/
def utf8Bytes (c : Char) : List Nat :=
  let n := c.toNat
  if n < 0x80 then [n]
  else if n < 0x800 then [0xc0 + n / 64, 0x80 + n % 64]
  else if n < 0x10000 then [0xe0 + n / 4096, 0x80 + n / 64 % 64, 0x80 + n % 64]
  else [0xf0 + n / 262144, 0x80 + n / 4096 % 64, 0x80 + n / 64 % 64, 0x80 + n % 64]

/-- Model of encodeURIComponent: unreserved characters pass through,
every other character is replaced by the percent-encoding of its UTF-8
bytes with uppercase hexadecimal digits. -/
def encodeURIComponentL (cs : List Char) : List Char :=
  cs.flatMap fun c =>
    if isUriUnreserved c then [c]
    else (utf8Bytes c).flatMap fun b => ['%', hexDigit (b / 16), hexDigit (b % 16)]

/-- URL computed by DremioClient.getCatalog: the root catalog endpoint for
an absent or empty path, otherwise the endpoint extended with every path
segment encoded independently and the encoded segments joined with the
slash separator. -/
def getCatalogUrl (path : List (List Char)) : List Char :=
  if path.isEmpty then "/api/v3/catalog".data
  else "/api/v3/catalog/".data ++ joinSep '/' (path.map encodeURIComponentL)

/-- Embedding of DremioClient.escapeIdentifier: double every embedded
double quote and wrap the result in double quotes. -/
def escapeIdentifier (cs : List Char) : List Char :=
  '\x22' :: (cs.flatMap fun c => if c = '\x22' then ['\x22', '\x22'] else [c]) ++ ['\x22']

/-- Collapse every doubled double quote back to a single double quote. -/
def collapseQuotes : List Char → List Char
  | [] => []
  | [c] => [c]
  | c1 :: c2 :: r =>
    if c1 = '\x22' && c2 = '\x22' then c1 :: collapseQuotes r
    else c1 :: collapseQuotes (c2 :: r)

/-- Inverse of escapeIdentifier: strip the outer double quotes and
collapse every doubled double quote. -/
def unescapeIdentifier (cs : List Char) : List Char :=
  collapseQuotes ((cs.drop 1).dropLast)

/-- Embedding of DremioClient.buildTableReference: reject an empty path or
a path containing an empty segment, otherwise escape every segment
independently and join the escaped segments with a dot.  The source also
rejects a non-string segment at runtime; in this typed embedding every
segment is a string by construction. -/
def buildTableReference (tablePath : List (List Char)) :
    Except (List Char) (List Char) :=
  if tablePath.isEmpty then .error "Table path cannot be empty".data
  else if tablePath.any (fun c => c.isEmpty) then
    .error "Invalid table path component".data
  else .ok (joinSep '.' (tablePath.map escapeIdentifier))

/-- One output column, as extracted from the job results response. -/
structure TableSchema where
  name : List Char
  type : List Char
deriving DecidableEq

/-- One result row: a JavaScript object modelled as its insertion-ordered
field list; Object.values is the list of second components.  Values are
kept as the strings they are coerced to when joined. -/
abbrev Row := List (List Char × List Char)

/-- Materialised result of a query, as returned by executeQuery. -/
structure QueryResult where
  rowCount : Nat
  schema : List TableSchema
  rows : List Row
deriving DecidableEq

/-- One job status response: the state string plus the error fields the
client reads on failure (an absent field is the empty string, matching the
falsy defaulting in the source). -/
structure JobStatus where
  jobState : List Char
  errorMessage : List Char
  queryError : List Char
deriving DecidableEq

/-- One page of job results, as read from the results endpoint. -/
structure ResultsPage where
  rowCount : Nat
  schema : List TableSchema
  rows : List Row
deriving DecidableEq

/-- The remote REST API, abstracted as response oracles: job submission
returns a job id, the job endpoint returns the status for the n-th poll of
a given job, and the results endpoint returns a page for a job id and a
limit parameter. -/
structure Backend where
  submit : List Char → List Char
  poll : List Char → Nat → JobStatus
  results : List Char → Nat → ResultsPage

/-- One HTTP request issued by the client (the trace of network calls). -/
inductive Request where
  | submit (sql : List Char)
  | pollJob (jobId : List Char)
  | fetchResults (jobId : List Char) (limit : Nat)
deriving DecidableEq

/-- The while-loop guard of executeQuery: the in-flight job states. -/
def isInFlight (s : List Char) : Bool :=
  if s = "RUNNING".data then true
  else if s = "STARTING".data then true
  else if s = "ENQUEUED".data then true
  else false

/-- The error text thrown when a poll reports FAILED or CANCELED,
including the backend message (defaulted when empty) and the detail text
when one is present. -/
def failureMessage (st : JobStatus) : List Char :=
  "Query failed with state: ".data ++ st.jobState ++ ". Error: ".data ++
    (if st.errorMessage = [] then "Unknown error".data else st.errorMessage) ++
    (if st.queryError = [] then [] else ". Details: ".data ++ st.queryError)

/-- The polling loop of executeQuery.  The loop state is the attempt
counter and the current job state (initially RUNNING); each iteration with
an in-flight state first checks the attempt ceiling of 30, then sleeps
(not modelled), fetches the job status, throws on FAILED or CANCELED, and
otherwise continues with the fetched state.  The extra fuel argument makes
the recursion structural; it is kept at 31 - attempts, which the ceiling
check keeps from ever reaching zero. -/
def pollLoop (b : Backend) (jobId : List Char) (fuel attempts : Nat)
    (jobState : List Char) : Except (List Char) (List Char) × List Request :=
  if isInFlight jobState then
      if 30 ≤ attempts then (.error "Query timeout".data, [])
      else
        match fuel with
        | 0 => (.error "Query timeout".data, [])
        | fuel2 + 1 =>
          let st := b.poll jobId attempts
          if st.jobState = "FAILED".data ∨ st.jobState = "CANCELED".data then
            (.error (failureMessage st), [.pollJob jobId])
          else
            let r := pollLoop b jobId fuel2 (attempts + 1) st.jobState
            (r.1, .pollJob jobId :: r.2)
    else (.ok jobState, [])

/-- Embedding of DremioClient.executeQuery: clamp the requested limit to
the 500-row cap, submit the SQL, poll until the job leaves the in-flight
states, fail unless the final state is COMPLETED, then fetch one result
page bounded by the clamped limit.  The result also carries the trace of
issued requests.  The try/catch in the source only rewraps transport
errors, which this model does not produce, and rethrows everything else
unchanged. -/
def executeQuery (b : Backend) (sql : List Char) (maxRows : Nat := 500) :
    Except (List Char) QueryResult × List Request :=
  let limitedMaxRows := min maxRows 500
  let jobId := b.submit sql
  match pollLoop b jobId 31 0 "RUNNING".data with
  | (.error e, rs) => (.error e, .submit sql :: rs)
  | (.ok finalState, rs) =>
    if finalState = "COMPLETED".data then
      let page := b.results jobId limitedMaxRows
      (.ok ⟨page.rowCount, page.schema, page.rows⟩,
        .submit sql :: rs ++ [.fetchResults jobId limitedMaxRows])
    else
      (.error ("Query failed with state: ".data ++ finalState), .submit sql :: rs)

/-- Flattening used by explainQuery: join the values of each row with one
space, and the rows with newlines. -/
def flattenRows (rows : List Row) : List Char :=
  joinSep '\n' (rows.map fun row => joinSep ' ' (row.map Prod.snd))

/-- Embedding of DremioClient.explainQuery: reject non-SELECT input before
any request is issued, otherwise execute EXPLAIN PLAN FOR followed by the
input SQL (with the 500-row default limit) and flatten the rows. -/
def explainQuery (b : Backend) (sql : List Char) :
    Except (List Char) (List Char) × List Request :=
  if isSelectQueryL sql then
    match executeQuery b ("EXPLAIN PLAN FOR ".data ++ sql) 500 with
    | (.error e, rs) => (.error e, rs)
    | (.ok qr, rs) => (.ok (flattenRows qr.rows), rs)
  else (.error "Only SELECT queries can be explained".data, [])

/-- Count the job-status requests in a trace. -/
def countPolls : List Request → Nat
  | [] => 0
  | .pollJob _ :: r => countPolls r + 1
  | _ :: r => countPolls r

mutual
/-- A catalog entity as consumed by searchCatalog: an optional path (the
raw response may lack the field) and a child list.  An absent children
field behaves exactly like an empty array in the source (the loop body is
only entered when children is a nonempty array), so absence is modelled as
the empty list. -/
inductive Entity where
  | mk (path : Option (List (List Char))) (children : EntityList)
/-- A list of catalog entities (mutual with Entity). -/
inductive EntityList where
  | nil
  | cons (e : Entity) (es : EntityList)
end

/-- The optional path of an entity. -/
def Entity.path : Entity → Option (List (List Char))
  | .mk p _ => p

/-- The children of an entity. -/
def Entity.children : Entity → EntityList
  | .mk _ cs => cs

/-- Whether the pattern occurs as a contiguous run at the start of the
text. -/
def leadsWith : List Char → List Char → Bool
  | [], _ => true
  | _ :: _, [] => false
  | a :: p2, b :: l2 => a == b && leadsWith p2 l2

/-- Model of String.prototype.includes: whether the pattern occurs
contiguously anywhere in the text. -/
def listContainsSub (text pat : List Char) : Bool :=
  if leadsWith pat text then true
  else
    match text with
    | [] => false
    | _ :: t => listContainsSub t pat

/-- Lowercasing used for the case-insensitive match (ASCII, matching the
behaviour of toLowerCase on the ASCII range). -/
def toLowerL (cs : List Char) : List Char := cs.map Char.toLower

/-- The match test of searchCatalog: the entity has a nonempty path and
its last segment (defaulted to the empty string) contains the search term
as a case-insensitive substring.  An absent or empty path never matches
and is skipped without error. -/
def entityMatches (term : List Char) (e : Entity) : Bool :=
  match e.path with
  | none => false
  | some ps =>
    if ps.isEmpty then false
    else listContainsSub (toLowerL (ps.getLastD [])) (toLowerL term)

mutual
/-- Embedding of the recursive closure inside searchCatalog: append the
entity when it matches, then visit the children depth-first. -/
def searchRec (term : List Char) : Entity → List Entity
  | .mk p cs =>
    (if entityMatches term (.mk p cs) then [Entity.mk p cs] else []) ++
      searchRecList term cs
/-- searchRec over a child list, left to right. -/
def searchRecList (term : List Char) : EntityList → List Entity
  | .nil => []
  | .cons e es => searchRec term e ++ searchRecList term es
end

mutual
/-- Depth-first enumeration of an entity tree (the visit order of
searchCatalog). -/
def dfsEntity : Entity → List Entity
  | .mk p cs => Entity.mk p cs :: dfsList cs
/-- Depth-first enumeration of a child list, left to right. -/
def dfsList : EntityList → List Entity
  | .nil => []
  | .cons e es => dfsEntity e ++ dfsList es
end

/-- The two root response shapes handled by searchCatalog: a bare entity,
or an envelope whose data field is a list of entities. -/
inductive RootCatalog where
  | bare (e : Entity)
  | envelope (data : EntityList)

/-- Embedding of DremioClient.searchCatalog on a fetched root response:
the envelope case iterates the data list, the bare case wraps the entity
in a one-element list and iterates it. -/
def searchCatalog (term : List Char) (root : RootCatalog) : List Entity :=
  match root with
  | .bare e => searchRec term e
  | .envelope data => searchRecList term data

/-- Depth-first enumeration of a root response. -/
def dfsRoot : RootCatalog → List Entity
  | .bare e => dfsEntity e
  | .envelope data => dfsList data

/-- A backend whose job completes on the first poll and whose result pages
are empty (used to exercise theorems on concrete inputs). -/
def doneBackend : Backend where
  submit := fun _ => "job-1".data
  poll := fun _ _ => ⟨"COMPLETED".data, [], []⟩
  results := fun _ _ => ⟨0, [], []⟩

/-- A backend whose job never leaves the RUNNING state. -/
def stuckBackend : Backend where
  submit := fun _ => "job-2".data
  poll := fun _ _ => ⟨"RUNNING".data, [], []⟩
  results := fun _ _ => ⟨0, [], []⟩

/-- A backend whose first poll reports FAILED with a message and detail. -/
def failingBackend : Backend where
  submit := fun _ => "job-3".data
  poll := fun _ _ => ⟨"FAILED".data, "boom".data, "details here".data⟩
  results := fun _ _ => ⟨0, [], []⟩

/-- A backend whose job completes at once and returns one plan row (used
to exercise explainQuery on a concrete input). -/
def planBackend : Backend where
  submit := fun _ => "job-4".data
  poll := fun _ _ => ⟨"COMPLETED".data, [], []⟩
  results := fun _ _ => ⟨1, [⟨"text".data, "VARCHAR".data⟩], [[("text".data, "00-00 Screen".data)]]⟩

/-! Helper lemmas. -/

theorem collapseQuotes_cons_ne (c : Char) (l : List Char) (hc : c ≠ '\x22') :
    collapseQuotes (c :: l) = c :: collapseQuotes l := by
  cases l with
  | nil => rfl
  | cons d t =>
    show (if (c = '\x22' && d = '\x22') = true then c :: collapseQuotes t
      else c :: collapseQuotes (d :: t)) = c :: collapseQuotes (d :: t)
    simp [hc]

theorem collapseQuotes_cons_dq (l : List Char) :
    collapseQuotes ('\x22' :: '\x22' :: l) = '\x22' :: collapseQuotes l := by
  show (if ('\x22' = '\x22' && '\x22' = '\x22') = true then '\x22' :: collapseQuotes l
    else '\x22' :: collapseQuotes ('\x22' :: l)) = '\x22' :: collapseQuotes l
  simp

theorem collapseQuotes_doubled (cs : List Char) :
    collapseQuotes (cs.flatMap fun c => if c = '\x22' then ['\x22', '\x22'] else [c]) = cs := by
  induction cs with
  | nil => rfl
  | cons c r ih =>
    by_cases hc : c = '\x22'
    · subst hc
      show collapseQuotes ('\x22' :: '\x22' ::
        (r.flatMap fun c => if c = '\x22' then ['\x22', '\x22'] else [c])) = _
      rw [collapseQuotes_cons_dq, ih]
    · simp only [List.flatMap_cons, if_neg hc, List.cons_append, List.nil_append]
      rw [collapseQuotes_cons_ne _ _ hc, ih]

theorem unescape_escape (cs : List Char) :
    unescapeIdentifier (escapeIdentifier cs) = cs := by
  unfold unescapeIdentifier escapeIdentifier
  rw [List.drop_one, List.cons_append, List.tail_cons, List.dropLast_concat]
  exact collapseQuotes_doubled cs

/-- Claim C9: identifier escaping is injective, witnessed by the round
trip that strips the outer quotes and collapses doubled quotes. -/
theorem escapeIdentifier_injective_roundtrip :
    (∀ a b : List Char, escapeIdentifier a = escapeIdentifier b → a = b) ∧
    (∀ s : List Char, unescapeIdentifier (escapeIdentifier s) = s) := by
  refine ⟨fun a b h => ?_, unescape_escape⟩
  have ha := unescape_escape a
  rw [h, unescape_escape b] at ha
  exact ha.symm

theorem escapeIdentifier_injective_roundtrip_witness :
    ('a' :: 'b' :: ([] : List Char)) = ('a' :: 'b' :: ([] : List Char)) ∧
    unescapeIdentifier (escapeIdentifier "a\"b".data) = "a\"b".data :=
  ⟨escapeIdentifier_injective_roundtrip.1 ['a', 'b'] ['a', 'b'] rfl,
   escapeIdentifier_injective_roundtrip.2 "a\"b".data⟩

/-- Claim C4: building a table reference rejects an empty path and any
path containing an empty segment, and otherwise escapes every segment
independently (doubling embedded double quotes and wrapping in double
quotes) and joins the escaped segments with a dot.  The concrete conjuncts
check the documented examples. -/
theorem buildTableReference_spec (path : List (List Char)) :
    (path = [] → buildTableReference path = .error "Table path cannot be empty".data) ∧
    (path ≠ [] → [] ∈ path →
      buildTableReference path = .error "Invalid table path component".data) ∧
    (path ≠ [] → [] ∉ path →
      buildTableReference path = .ok (joinSep '.' (path.map escapeIdentifier))) ∧
    buildTableReference ["s".data, "t".data] = .ok "\"s\".\"t\"".data ∧
    escapeIdentifier "a\"b".data = "\"a\"\"b\"".data := by
  refine ⟨fun h => ?_, fun h1 h2 => ?_, fun h1 h2 => ?_, rfl, rfl⟩
  · subst h; rfl
  · unfold buildTableReference
    rw [if_neg, if_pos]
    · simp only [List.any_eq_true]
      exact ⟨[], h2, rfl⟩
    · simp [List.isEmpty_iff, h1]
  · unfold buildTableReference
    rw [if_neg, if_neg]
    · simp only [List.any_eq_true, not_exists]
      intro x hx
      rcases hx with ⟨hmem, hemp⟩
      rw [List.isEmpty_iff] at hemp
      exact h2 (hemp ▸ hmem)
    · simp [List.isEmpty_iff, h1]

theorem buildTableReference_spec_witness :
    buildTableReference [] = .error "Table path cannot be empty".data ∧
    buildTableReference ["s".data, "t".data] =
      .ok (joinSep '.' ([["s".data, "t".data]].flatten.map escapeIdentifier)) :=
  ⟨(buildTableReference_spec []).1 rfl,
   (buildTableReference_spec ["s".data, "t".data]).2.2.1 (by decide) (by decide)⟩

/-- Claim C2: the catalog URL for a nonempty path percent-encodes each
segment independently and joins the encoded segments with a slash; the
concrete conjuncts show that for the path a, b/c only the slash inside the
second segment is encoded, and that the result differs from joining the
segments first and encoding the joined string as one unit. -/
theorem getCatalogUrl_per_segment (path : List (List Char)) (hne : path ≠ []) :
    getCatalogUrl path =
      "/api/v3/catalog/".data ++ joinSep '/' (path.map encodeURIComponentL) ∧
    getCatalogUrl [['a'], ['b', '/', 'c']] = "/api/v3/catalog/a/b%2Fc".data ∧
    getCatalogUrl [['a'], ['b', '/', 'c']] ≠
      "/api/v3/catalog/".data ++
        encodeURIComponentL (joinSep '/' [['a'], ['b', '/', 'c']]) := by
  refine ⟨?_, by decide, by decide⟩
  unfold getCatalogUrl
  rw [if_neg]
  simp [List.isEmpty_iff, hne]

theorem getCatalogUrl_per_segment_witness :
    getCatalogUrl [['a']] =
      "/api/v3/catalog/".data ++ joinSep '/' ([['a']].map encodeURIComponentL) ∧
    getCatalogUrl [['a'], ['b', '/', 'c']] = "/api/v3/catalog/a/b%2Fc".data ∧
    getCatalogUrl [['a'], ['b', '/', 'c']] ≠
      "/api/v3/catalog/".data ++
        encodeURIComponentL (joinSep '/' [['a'], ['b', '/', 'c']]) :=
  getCatalogUrl_per_segment [['a']] (by decide)

mutual
theorem searchRec_eq_filter (term : List Char) :
    ∀ e : Entity, searchRec term e = (dfsEntity e).filter (entityMatches term)
  | .mk p cs => by
    rw [searchRec, dfsEntity, List.filter_cons, searchRecList_eq_filter term cs]
    cases hm : entityMatches term (Entity.mk p cs) <;> simp [hm]
theorem searchRecList_eq_filter (term : List Char) :
    ∀ es : EntityList, searchRecList term es = (dfsList es).filter (entityMatches term)
  | .nil => rfl
  | .cons e es => by
    rw [searchRecList, dfsList, List.filter_append,
      searchRec_eq_filter term e, searchRecList_eq_filter term es]
end

/-- Claim C8: searchCatalog, on either root response shape, never fails on
an entity lacking a path or having an empty path, and returns exactly the
entities of the depth-first traversal whose last path segment contains the
search term case-insensitively, in traversal order: it equals filtering
the depth-first enumeration by the match predicate (which is false
whenever the path is absent or empty, so such entities are skipped). -/
theorem searchCatalog_eq_filter (term : List Char) (root : RootCatalog) :
    searchCatalog term root = (dfsRoot root).filter (entityMatches term) := by
  cases root with
  | bare e => exact searchRec_eq_filter term e
  | envelope data => exact searchRecList_eq_filter term data

theorem pollLoop_done (b : Backend) (jid : List Char) (fuel att : Nat)
    (st : List Char) (hst : isInFlight st = false) :
    pollLoop b jid fuel att st = (.ok st, []) := by
  unfold pollLoop
  rw [if_neg]
  simp [hst]

theorem pollLoop_ceiling (b : Backend) (jid : List Char) (fuel att : Nat)
    (st : List Char) (hst : isInFlight st = true) (hatt : 30 ≤ att) :
    pollLoop b jid fuel att st = (.error "Query timeout".data, []) := by
  unfold pollLoop
  rw [if_pos hst, if_pos hatt]

theorem pollLoop_step_fail (b : Backend) (jid : List Char) (fuel att : Nat)
    (st : List Char) (hst : isInFlight st = true) (hatt : att < 30)
    (hf : (b.poll jid att).jobState = "FAILED".data ∨
          (b.poll jid att).jobState = "CANCELED".data) :
    pollLoop b jid (fuel + 1) att st =
      (.error (failureMessage (b.poll jid att)), [.pollJob jid]) := by
  conv_lhs => unfold pollLoop
  rw [if_pos hst, if_neg (Nat.not_le.mpr hatt)]
  show (if (b.poll jid att).jobState = "FAILED".data ∨
      (b.poll jid att).jobState = "CANCELED".data then
    (Except.error (failureMessage (b.poll jid att)), [Request.pollJob jid])
    else _) = _
  rw [if_pos hf]

theorem pollLoop_step_cont (b : Backend) (jid : List Char) (fuel att : Nat)
    (st : List Char) (hst : isInFlight st = true) (hatt : att < 30)
    (hf : ¬ ((b.poll jid att).jobState = "FAILED".data ∨
             (b.poll jid att).jobState = "CANCELED".data)) :
    pollLoop b jid (fuel + 1) att st =
      ((pollLoop b jid fuel (att + 1) (b.poll jid att).jobState).1,
        .pollJob jid :: (pollLoop b jid fuel (att + 1) (b.poll jid att).jobState).2) := by
  conv_lhs => unfold pollLoop
  rw [if_pos hst, if_neg (Nat.not_le.mpr hatt)]
  show (if (b.poll jid att).jobState = "FAILED".data ∨
      (b.poll jid att).jobState = "CANCELED".data then
    (Except.error (failureMessage (b.poll jid att)), [Request.pollJob jid])
    else _) = _
  rw [if_neg hf]

theorem pollLoop_zero_timeout (b : Backend) (jid : List Char) (att : Nat)
    (st : List Char) (hst : isInFlight st = true) :
    pollLoop b jid 0 att st = (.error "Query timeout".data, []) := by
  unfold pollLoop
  rw [if_pos hst]
  by_cases hatt : 30 ≤ att
  · rw [if_pos hatt]
  · rw [if_neg hatt]

theorem countPolls_append (a b : List Request) :
    countPolls (a ++ b) = countPolls a + countPolls b := by
  induction a with
  | nil => simp [countPolls]
  | cons h t ih => cases h <;> simp [countPolls, ih] <;> omega

theorem countPolls_pollLoop (b : Backend) (jid : List Char) :
    ∀ fuel attempts st, countPolls (pollLoop b jid fuel attempts st).2 ≤ 30 - attempts := by
  intro fuel
  induction fuel with
  | zero =>
    intro att st
    by_cases hst : isInFlight st = true
    · rw [pollLoop_zero_timeout b jid att st hst]; simp [countPolls]
    · rw [pollLoop_done b jid 0 att st (by simpa using hst)]; simp [countPolls]
  | succ f ih =>
    intro att st
    by_cases hst : isInFlight st = true
    · by_cases hatt : 30 ≤ att
      · rw [pollLoop_ceiling b jid (f + 1) att st hst hatt]; simp [countPolls]
      · replace hatt := Nat.lt_of_not_le hatt
        by_cases hf : (b.poll jid att).jobState = "FAILED".data ∨
            (b.poll jid att).jobState = "CANCELED".data
        · rw [pollLoop_step_fail b jid f att st hst hatt hf]
          simp [countPolls]
          omega
        · rw [pollLoop_step_cont b jid f att st hst hatt hf]
          have hrec := ih (att + 1) ((b.poll jid att).jobState)
          simp only [countPolls]
          omega
    · rw [pollLoop_done b jid (f + 1) att st (by simpa using hst)]
      simp [countPolls]

/-- Claim C10: every executeQuery call issues at most 30 job-status
requests, whatever the backend returns: the polling loop terminates within
the fixed attempt ceiling. -/
theorem executeQuery_poll_bound (b : Backend) (sql : List Char) (maxRows : Nat) :
    countPolls (executeQuery b sql maxRows).2 ≤ 30 := by
  simp only [executeQuery]
  have h := countPolls_pollLoop b (b.submit sql) 31 0 "RUNNING".data
  rcases hp : pollLoop b (b.submit sql) 31 0 "RUNNING".data with ⟨res, rs⟩
  rw [hp] at h
  cases res with
  | error e => simpa [countPolls] using h
  | ok f =>
    have h2 : countPolls rs ≤ 30 := by simpa using h
    by_cases hf : f = "COMPLETED".data <;>
      simp [countPolls, countPolls_append, hf] <;> omega

theorem isInFlight_not_failState (s : List Char) (h : isInFlight s = true) :
    ¬ (s = "FAILED".data ∨ s = "CANCELED".data) := by
  intro hc
  unfold isInFlight at h
  rcases hc with hc | hc <;> subst hc <;> revert h <;> decide

theorem pollLoop_timeout (b : Backend) (jid : List Char) :
    ∀ fuel attempts st, attempts + fuel = 31 → isInFlight st = true →
    (∀ i, i < 30 → isInFlight ((b.poll jid i).jobState) = true) →
    (pollLoop b jid fuel attempts st).1 = .error "Query timeout".data := by
  intro fuel
  induction fuel with
  | zero =>
    intro att st hfu hst _
    rw [pollLoop_zero_timeout b jid att st hst]
  | succ f ih =>
    intro att st hfu hst hall
    by_cases hatt : 30 ≤ att
    · rw [pollLoop_ceiling b jid (f + 1) att st hst hatt]
    · replace hatt := Nat.lt_of_not_le hatt
      have hnext : isInFlight ((b.poll jid att).jobState) = true := hall att hatt
      have hnf := isInFlight_not_failState _ hnext
      rw [pollLoop_step_cont b jid f att st hst hatt hnf]
      exact ih (att + 1) ((b.poll jid att).jobState) (by omega) hnext hall

/-- Claim C7: if every poll within the attempt ceiling reports an
in-flight state (STARTING, ENQUEUED or RUNNING), executeQuery fails with
the timeout error instead of polling indefinitely. -/
theorem executeQuery_timeout (b : Backend) (sql : List Char) (maxRows : Nat)
    (h : ∀ i, i < 30 → isInFlight ((b.poll (b.submit sql) i).jobState) = true) :
    (executeQuery b sql maxRows).1 = .error "Query timeout".data := by
  simp only [executeQuery]
  have ht := pollLoop_timeout b (b.submit sql) 31 0 "RUNNING".data rfl (by decide) h
  rcases hp : pollLoop b (b.submit sql) 31 0 "RUNNING".data with ⟨res, rs⟩
  rw [hp] at ht
  cases res with
  | error e => simp at ht; subst ht; rfl
  | ok f => simp at ht

theorem executeQuery_timeout_witness :
    (executeQuery stuckBackend "SELECT 1".data 500).1 = .error "Query timeout".data :=
  executeQuery_timeout stuckBackend "SELECT 1".data 500 (fun _ _ => rfl)

theorem leadsWith_append (p q : List Char) : leadsWith p (p ++ q) = true := by
  induction p with
  | nil => rfl
  | cons a p2 ih => simp [leadsWith, ih]

theorem listContainsSub_here (m post : List Char) :
    listContainsSub (m ++ post) m = true := by
  unfold listContainsSub
  rw [if_pos (leadsWith_append m post)]

theorem listContainsSub_append (pre m post : List Char) :
    listContainsSub (pre ++ m ++ post) m = true := by
  induction pre with
  | nil => simpa using listContainsSub_here m post
  | cons c pre2 ih =>
    show listContainsSub (c :: (pre2 ++ m ++ post)) m = true
    unfold listContainsSub
    split
    · rfl
    · exact ih

theorem listContainsSub_at_end (pre m : List Char) :
    listContainsSub (pre ++ m) m = true := by
  have h := listContainsSub_append pre m []
  simpa using h

theorem failureMessage_contains_error (st : JobStatus) :
    listContainsSub (failureMessage st) st.errorMessage = true := by
  by_cases he : st.errorMessage = []
  · rw [he]
    unfold listContainsSub leadsWith
    simp
  · unfold failureMessage
    rw [if_neg he]
    rw [show "Query failed with state: ".data ++ st.jobState ++ ". Error: ".data ++
        st.errorMessage ++
        (if st.queryError = [] then [] else ". Details: ".data ++ st.queryError) =
      ("Query failed with state: ".data ++ st.jobState ++ ". Error: ".data) ++
        st.errorMessage ++
        (if st.queryError = [] then [] else ". Details: ".data ++ st.queryError) from by
        simp [List.append_assoc]]
    exact listContainsSub_append _ _ _

theorem failureMessage_contains_detail (st : JobStatus) (hq : st.queryError ≠ []) :
    listContainsSub (failureMessage st) st.queryError = true := by
  unfold failureMessage
  rw [if_neg hq]
  rw [show "Query failed with state: ".data ++ st.jobState ++ ". Error: ".data ++
      (if st.errorMessage = [] then "Unknown error".data else st.errorMessage) ++
      (". Details: ".data ++ st.queryError) =
    ("Query failed with state: ".data ++ st.jobState ++ ". Error: ".data ++
      (if st.errorMessage = [] then "Unknown error".data else st.errorMessage) ++
      ". Details: ".data) ++ st.queryError from by simp [List.append_assoc]]
  exact listContainsSub_at_end _ _

theorem pollLoop_fail (b : Backend) (jid : List Char) :
    ∀ k fuel attempts st, attempts + fuel = 31 → attempts + k < 30 →
    isInFlight st = true →
    (∀ i, i < k → isInFlight ((b.poll jid (attempts + i)).jobState) = true) →
    ((b.poll jid (attempts + k)).jobState = "FAILED".data ∨
     (b.poll jid (attempts + k)).jobState = "CANCELED".data) →
    (pollLoop b jid fuel attempts st).1 =
      .error (failureMessage (b.poll jid (attempts + k))) := by
  intro k
  induction k with
  | zero =>
    intro fuel att st hfu hlt hst _ hfail
    rw [Nat.add_zero] at hfail ⊢
    cases fuel with
    | zero => omega
    | succ f => rw [pollLoop_step_fail b jid f att st hst (by omega) hfail]
  | succ k ih =>
    intro fuel att st hfu hlt hst hall hfail
    cases fuel with
    | zero => omega
    | succ f =>
      have h0 : isInFlight ((b.poll jid att).jobState) = true := by
        have := hall 0 (Nat.succ_pos k)
        rwa [Nat.add_zero] at this
      have hnf := isInFlight_not_failState _ h0
      rw [pollLoop_step_cont b jid f att st hst (by omega) hnf]
      have hall2 : ∀ i, i < k →
          isInFlight ((b.poll jid (att + 1 + i)).jobState) = true := by
        intro i hi
        have := hall (i + 1) (by omega)
        rwa [show att + (i + 1) = att + 1 + i from by omega] at this
      have hfail2 : (b.poll jid (att + 1 + k)).jobState = "FAILED".data ∨
          (b.poll jid (att + 1 + k)).jobState = "CANCELED".data := by
        rwa [show att + (k + 1) = att + 1 + k from by omega] at hfail
      have := ih f (att + 1) ((b.poll jid att).jobState) (by omega) (by omega) h0 hall2 hfail2
      rw [show att + (k + 1) = att + 1 + k from by omega]
      exact this

/-- Claim C6: if the polls stay in flight until poll number k (within the
attempt ceiling) reports FAILED or CANCELED, executeQuery fails with the
failure message for that poll, and that message contains the backend
error message and, whenever a detail is present, the backend detail. -/
theorem executeQuery_failure_message (b : Backend) (sql : List Char)
    (maxRows k : Nat) (hk : k < 30)
    (hall : ∀ i, i < k → isInFlight ((b.poll (b.submit sql) i).jobState) = true)
    (hfail : (b.poll (b.submit sql) k).jobState = "FAILED".data ∨
             (b.poll (b.submit sql) k).jobState = "CANCELED".data) :
    (executeQuery b sql maxRows).1 =
      .error (failureMessage (b.poll (b.submit sql) k)) ∧
    listContainsSub (failureMessage (b.poll (b.submit sql) k))
      ((b.poll (b.submit sql) k).errorMessage) = true ∧
    ((b.poll (b.submit sql) k).queryError ≠ [] →
      listContainsSub (failureMessage (b.poll (b.submit sql) k))
        ((b.poll (b.submit sql) k).queryError) = true) := by
  refine ⟨?_, failureMessage_contains_error _,
    fun hq => failureMessage_contains_detail _ hq⟩
  simp only [executeQuery]
  have ht := pollLoop_fail b (b.submit sql) k 31 0 "RUNNING".data rfl
    (by omega) (by decide)
    (fun i hi => by rw [Nat.zero_add]; exact hall i hi)
    (by rw [Nat.zero_add]; exact hfail)
  rw [Nat.zero_add] at ht
  rcases hp : pollLoop b (b.submit sql) 31 0 "RUNNING".data with ⟨res, rs⟩
  rw [hp] at ht
  cases res with
  | error e => simp at ht; subst ht; rfl
  | ok f => simp at ht

theorem executeQuery_failure_message_witness :
    (executeQuery failingBackend "SELECT 1".data 500).1 =
      .error (failureMessage (failingBackend.poll
        (failingBackend.submit "SELECT 1".data) 0)) ∧
    listContainsSub (failureMessage (failingBackend.poll
        (failingBackend.submit "SELECT 1".data) 0)) "boom".data = true ∧
    listContainsSub (failureMessage (failingBackend.poll
        (failingBackend.submit "SELECT 1".data) 0)) "details here".data = true := by
  have h := executeQuery_failure_message failingBackend "SELECT 1".data 500 0
    (by omega) (fun i hi => absurd hi (Nat.not_lt_zero i)) (Or.inl rfl)
  exact ⟨h.1, h.2.1, h.2.2 (by decide)⟩

theorem pollLoop_mem_poll (b : Backend) (jid : List Char) :
    ∀ fuel attempts st r, r ∈ (pollLoop b jid fuel attempts st).2 → r = .pollJob jid := by
  intro fuel
  induction fuel with
  | zero =>
    intro att st r hr
    by_cases hst : isInFlight st = true
    · rw [pollLoop_zero_timeout b jid att st hst] at hr; simp at hr
    · rw [pollLoop_done b jid 0 att st (by simpa using hst)] at hr; simp at hr
  | succ f ih =>
    intro att st r hr
    by_cases hst : isInFlight st = true
    · by_cases hatt : 30 ≤ att
      · rw [pollLoop_ceiling b jid (f + 1) att st hst hatt] at hr; simp at hr
      · replace hatt := Nat.lt_of_not_le hatt
        by_cases hf : (b.poll jid att).jobState = "FAILED".data ∨
            (b.poll jid att).jobState = "CANCELED".data
        · rw [pollLoop_step_fail b jid f att st hst hatt hf] at hr
          simpa using hr
        · rw [pollLoop_step_cont b jid f att st hst hatt hf] at hr
          rcases List.mem_cons.mp hr with h | h
          · exact h
          · exact ih (att + 1) ((b.poll jid att).jobState) r h
    · rw [pollLoop_done b jid (f + 1) att st (by simpa using hst)] at hr; simp at hr

/-- Claim C5: the requested row limit is clamped to the 500-row backend
cap before the results are fetched: every results request carries a limit
equal to the clamp (hence at most 500 and at most the request), and when
the backend honours the limit parameter, a completed query returns at most
min maxRows 500 rows. -/
theorem executeQuery_row_limit (b : Backend) (sql : List Char) (maxRows : Nat)
    (r : Request) (jid : List Char) (lim : Nat) (qr : QueryResult) :
    (r ∈ (executeQuery b sql maxRows).2 → r = .fetchResults jid lim →
      lim = min maxRows 500 ∧ lim ≤ 500 ∧ lim ≤ maxRows) ∧
    ((∀ j l, ((b.results j l).rows).length ≤ l) →
      (executeQuery b sql maxRows).1 = .ok qr →
      qr.rows.length ≤ min maxRows 500) := by
  constructor
  · intro hmem heq
    subst heq
    simp only [executeQuery] at hmem
    rcases hp : pollLoop b (b.submit sql) 31 0 "RUNNING".data with ⟨res, rs⟩
    rw [hp] at hmem
    have hrs : ∀ x, x ∈ rs → x = Request.pollJob (b.submit sql) := by
      intro x hx
      refine pollLoop_mem_poll b (b.submit sql) 31 0 "RUNNING".data x ?_
      rw [hp]
      exact hx
    cases res with
    | error e =>
      dsimp only [] at hmem
      rcases List.mem_cons.mp hmem with h | h
      · exact absurd h (by simp)
      · exact absurd (hrs _ h) (by simp)
    | ok f =>
      dsimp only [] at hmem
      by_cases hf : f = "COMPLETED".data
      · rw [if_pos hf] at hmem
        rcases List.mem_cons.mp hmem with h | h
        · exact absurd h (by simp)
        · rcases List.mem_append.mp h with h2 | h2
          · exact absurd (hrs _ h2) (by simp)
          · have h3 := List.mem_singleton.mp h2
            have hlim : lim = min maxRows 500 := by
              injection h3 with h4 h5
            refine ⟨hlim, ?_, ?_⟩ <;> rw [hlim] <;> omega
      · rw [if_neg hf] at hmem
        rcases List.mem_cons.mp hmem with h | h
        · exact absurd h (by simp)
        · exact absurd (hrs _ h) (by simp)
  · intro hhon hok
    simp only [executeQuery] at hok
    rcases hp : pollLoop b (b.submit sql) 31 0 "RUNNING".data with ⟨res, rs⟩
    rw [hp] at hok
    cases res with
    | error e => simp at hok
    | ok f =>
      dsimp only [] at hok
      by_cases hf : f = "COMPLETED".data
      · rw [if_pos hf] at hok
        have hqr := (Except.ok.inj hok).symm
        have : qr.rows = (b.results (b.submit sql) (min maxRows 500)).rows := by
          rw [hqr]
        rw [this]
        exact hhon (b.submit sql) (min maxRows 500)
      · rw [if_neg hf] at hok
        simp at hok

theorem executeQuery_row_limit_witness :
    (min 7 500 = min 7 500 ∧ min 7 500 ≤ 500 ∧ min 7 500 ≤ 7) ∧
    (QueryResult.mk 0 [] []).rows.length ≤ min 7 500 :=
  ⟨(executeQuery_row_limit doneBackend "SELECT 1".data 7
      (.fetchResults "job-1".data (min 7 500)) "job-1".data (min 7 500)
      ⟨0, [], []⟩).1 (by decide) rfl,
   (executeQuery_row_limit doneBackend "SELECT 1".data 7
      (.submit "SELECT 1".data) "job-1".data 0 ⟨0, [], []⟩).2
      (fun _ l => Nat.zero_le l) rfl⟩

theorem executeQuery_trace_head (b : Backend) (sql : List Char) (maxRows : Nat) :
    (executeQuery b sql maxRows).2.head? = some (.submit sql) := by
  simp only [executeQuery]
  rcases hp : pollLoop b (b.submit sql) 31 0 "RUNNING".data with ⟨res, rs⟩
  cases res with
  | error e => rfl
  | ok f =>
    by_cases hf : f = "COMPLETED".data
    · dsimp only []; rw [if_pos hf]; rfl
    · dsimp only []; rw [if_neg hf]; rfl

/-- Claim C3: explainQuery rejects any non-SELECT input with a validation
error before any network request is issued (the trace is empty), and for
SELECT input its first request submits exactly the text EXPLAIN PLAN FOR
followed by the input SQL; when that execution succeeds, the returned text
is the rows flattened by joining the values of each row with one space and
the rows with newlines. -/
theorem explainQuery_spec (b : Backend) (sql : List Char) (qr : QueryResult)
    (rs : List Request) :
    (isSelectQueryL sql = false →
      explainQuery b sql = (.error "Only SELECT queries can be explained".data, [])) ∧
    (isSelectQueryL sql = true →
      (explainQuery b sql).2.head? = some (.submit ("EXPLAIN PLAN FOR ".data ++ sql)) ∧
      (executeQuery b ("EXPLAIN PLAN FOR ".data ++ sql) 500 = (.ok qr, rs) →
        explainQuery b sql = (.ok (flattenRows qr.rows), rs))) := by
  constructor
  · intro hno
    unfold explainQuery
    rw [if_neg]
    simp [hno]
  · intro hyes
    constructor
    · unfold explainQuery
      rw [if_pos hyes]
      rcases he : executeQuery b ("EXPLAIN PLAN FOR ".data ++ sql) 500 with ⟨res, rs2⟩
      have hh := executeQuery_trace_head b ("EXPLAIN PLAN FOR ".data ++ sql) 500
      rw [he] at hh
      cases res with
      | error e => exact hh
      | ok q => exact hh
    · intro hexec
      unfold explainQuery
      rw [if_pos hyes, hexec]

theorem explainQuery_spec_witness :
    explainQuery doneBackend "DELETE FROM t".data =
      (.error "Only SELECT queries can be explained".data, []) ∧
    explainQuery planBackend "SELECT 1".data =
      (.ok (flattenRows [[("text".data, "00-00 Screen".data)]]),
        [.submit ("EXPLAIN PLAN FOR ".data ++ "SELECT 1".data),
         .pollJob "job-4".data, .fetchResults "job-4".data 500]) :=
  ⟨(explainQuery_spec doneBackend "DELETE FROM t".data ⟨0, [], []⟩ []).1 (by decide),
   ((explainQuery_spec planBackend "SELECT 1".data
      ⟨1, [⟨"text".data, "VARCHAR".data⟩], [[("text".data, "00-00 Screen".data)]]⟩
      [.submit ("EXPLAIN PLAN FOR ".data ++ "SELECT 1".data),
       .pollJob "job-4".data, .fetchResults "job-4".data 500]).2 (by decide)).2 rfl⟩

theorem splitNl_ne_nil (cs : List Char) : splitNl cs ≠ [] := by
  cases cs with
  | nil => simp [splitNl]
  | cons c r =>
    conv_lhs => unfold splitNl
    by_cases hc : c = '\n'
    · rw [if_pos hc]; simp
    · rw [if_neg hc]
      rcases h : splitNl r with _ | ⟨h1, t⟩ <;> simp

theorem mapInit_cons (f : List Char → List Char) (x : List Char)
    (l : List (List Char)) (hl : l ≠ []) :
    mapInit f (x :: l) = f x :: mapInit f l := by
  cases l with
  | nil => exact absurd rfl hl
  | cons y t => rfl

theorem mapInit_ne_nil (f : List Char → List Char) (l : List (List Char))
    (hl : l ≠ []) : mapInit f l ≠ [] := by
  cases l with
  | nil => exact absurd rfl hl
  | cons x t => cases t <;> simp [mapInit]

theorem joinNl_cons (l : List Char) (ls : List (List Char)) (hl : ls ≠ []) :
    joinNl (l :: ls) = l ++ '\n' :: joinNl ls := by
  cases ls with
  | nil => exact absurd rfl hl
  | cons y t => rfl

theorem hasNl_cons_ne (c : Char) (r : List Char) (hc : c ≠ '\n') :
    hasNl (c :: r) = hasNl r := by
  conv_lhs => unfold hasNl
  rw [if_neg hc]

theorem afterNl_cons_nl (r : List Char) : afterNl ('\n' :: r) = r := by
  conv_lhs => unfold afterNl
  simp

theorem afterNl_cons_ne (c : Char) (r : List Char) (hc : c ≠ '\n') :
    afterNl (c :: r) = afterNl r := by
  conv_lhs => unfold afterNl
  rw [if_neg hc]

theorem upToNl_cons_nl (r : List Char) : upToNl ('\n' :: r) = [] := by
  conv_lhs => unfold upToNl
  simp

theorem upToNl_cons_ne (c : Char) (r : List Char) (hc : c ≠ '\n') :
    upToNl (c :: r) = c :: upToNl r := by
  conv_lhs => unfold upToNl
  rw [if_neg hc]

theorem splitNl_no_nl (cs : List Char) (h : hasNl cs = false) : splitNl cs = [cs] := by
  induction cs with
  | nil => rfl
  | cons c r ih =>
    by_cases hc : c = '\n'
    · subst hc; unfold hasNl at h; simp at h
    · rw [hasNl_cons_ne c r hc] at h
      conv_lhs => unfold splitNl
      rw [if_neg hc, ih h]

theorem splitNl_head (cs : List Char) : ∃ t, splitNl cs = upToNl cs :: t := by
  induction cs with
  | nil => exact ⟨[], rfl⟩
  | cons c r ih =>
    by_cases hc : c = '\n'
    · subst hc
      refine ⟨splitNl r, ?_⟩
      rw [upToNl_cons_nl]
      conv_lhs => unfold splitNl
      simp
    · obtain ⟨t, ht⟩ := ih
      refine ⟨t, ?_⟩
      rw [upToNl_cons_ne c r hc]
      conv_lhs => unfold splitNl
      rw [if_neg hc, ht]

theorem splitNl_nl (cs : List Char) (h : hasNl cs = true) :
    splitNl cs = upToNl cs :: splitNl (afterNl cs) := by
  induction cs with
  | nil => simp [hasNl] at h
  | cons c r ih =>
    by_cases hc : c = '\n'
    · subst hc
      rw [upToNl_cons_nl, afterNl_cons_nl]
      conv_lhs => unfold splitNl
      simp
    · rw [hasNl_cons_ne c r hc] at h
      rw [upToNl_cons_ne c r hc, afterNl_cons_ne c r hc]
      conv_lhs => unfold splitNl
      rw [if_neg hc, ih h]

theorem stripLCAux_true_nl (r : List Char) (h : hasNl r = true) :
    stripLCAux true r = '\n' :: stripLCAux false (afterNl r) := by
  induction r with
  | nil => simp [hasNl] at h
  | cons c r2 ih =>
    by_cases hc : c = '\n'
    · subst hc
      rw [afterNl_cons_nl]
      conv_lhs => unfold stripLCAux
      simp
    · rw [hasNl_cons_ne c r2 hc] at h
      rw [afterNl_cons_ne c r2 hc]
      conv_lhs => unfold stripLCAux
      rw [if_neg hc, ih h]

theorem afterNl_length (cs : List Char) : (afterNl cs).length ≤ cs.length := by
  induction cs with
  | nil => simp [afterNl]
  | cons c r ih =>
    by_cases hc : c = '\n'
    · subst hc; rw [afterNl_cons_nl]; simp
    · rw [afterNl_cons_ne c r hc]
      exact Nat.le_succ_of_le ih

theorem upToNl_head (r : List Char) (x : Char) (h : (upToNl r).head? = some x) :
    r.head? = some x := by
  cases r with
  | nil => simp [upToNl] at h
  | cons c r2 =>
    by_cases hc : c = '\n'
    · subst hc; rw [upToNl_cons_nl] at h; simp at h
    · rw [upToNl_cons_ne c r2 hc] at h
      simpa using h

theorem truncDash_cons (c : Char) (h : List Char)
    (hcd : ¬ (c = '-' ∧ h.head? = some '-')) :
    truncDash (c :: h) = c :: truncDash h := by
  cases h with
  | nil => rfl
  | cons h1 h2 =>
    have hb : ¬ ((c = '-' && h1 = '-') = true) := by
      simp only [Bool.and_eq_true, decide_eq_true_eq]
      intro hx
      exact hcd ⟨hx.1, by simp [hx.2]⟩
    conv_lhs => unfold truncDash
    rw [if_neg hb]

theorem stripLCAux_false_cons (c : Char) (r : List Char)
    (hcd : ¬ (c = '-' ∧ r.head? = some '-')) :
    stripLCAux false (c :: r) = c :: stripLCAux false r := by
  cases r with
  | nil => rfl
  | cons c2 r2 =>
    have hb : ¬ ((c = '-' && c2 = '-') = true) := by
      simp only [Bool.and_eq_true, decide_eq_true_eq]
      intro hx
      exact hcd ⟨hx.1, by simp [hx.2]⟩
    conv_lhs => unfold stripLCAux
    rw [if_neg hb]

theorem linesView_nl (r : List Char) :
    joinNl (mapInit truncDash (splitNl ('\n' :: r))) =
      '\n' :: joinNl (mapInit truncDash (splitNl r)) := by
  have h1 : splitNl ('\n' :: r) = [] :: splitNl r := by
    conv_lhs => unfold splitNl
    simp
  rw [h1, mapInit_cons truncDash [] (splitNl r) (splitNl_ne_nil r),
    joinNl_cons _ _ (mapInit_ne_nil truncDash (splitNl r) (splitNl_ne_nil r))]
  rfl

theorem linesView_cons (c : Char) (r : List Char) (hc : c ≠ '\n')
    (hcd : ¬ (c = '-' ∧ r.head? = some '-')) :
    joinNl (mapInit truncDash (splitNl (c :: r))) =
      c :: joinNl (mapInit truncDash (splitNl r)) := by
  obtain ⟨t, ht⟩ := splitNl_head r
  have h1 : splitNl (c :: r) = (c :: upToNl r) :: t := by
    conv_lhs => unfold splitNl
    rw [if_neg hc, ht]
  cases t with
  | nil =>
    rw [h1, ht]
    rfl
  | cons t1 t2 =>
    have htd : truncDash (c :: upToNl r) = c :: truncDash (upToNl r) := by
      refine truncDash_cons c (upToNl r) ?_
      intro ⟨hcdash, hhead⟩
      exact hcd ⟨hcdash, upToNl_head r '-' hhead⟩
    rw [h1, ht,
      mapInit_cons truncDash (c :: upToNl r) (t1 :: t2) (by simp),
      mapInit_cons truncDash (upToNl r) (t1 :: t2) (by simp),
      joinNl_cons _ _ (mapInit_ne_nil truncDash (t1 :: t2) (by simp)),
      joinNl_cons _ _ (mapInit_ne_nil truncDash (t1 :: t2) (by simp)),
      htd]
    rfl

theorem stripLC_eq_lines_aux (n : Nat) :
    ∀ cs : List Char, cs.length ≤ n →
      stripLCAux false cs = joinNl (mapInit truncDash (splitNl cs)) := by
  induction n with
  | zero =>
    intro cs h
    cases cs with
    | nil => rfl
    | cons c r => simp at h
  | succ n ih =>
    intro cs hlen
    cases cs with
    | nil => rfl
    | cons c r =>
      by_cases hc : c = '\n'
      · subst hc
        rw [stripLCAux_false_cons '\n' r (by simp),
          linesView_nl r, ih r (by simpa using hlen)]
      · by_cases hcd : c = '-' ∧ r.head? = some '-'
        · obtain ⟨hcdash, hhead⟩ := hcd
          subst hcdash
          cases r with
          | nil => simp at hhead
          | cons c2 r2 =>
            simp only [List.head?_cons, Option.some.injEq] at hhead
            subst hhead
            have hdd : stripLCAux false ('-' :: '-' :: r2) =
                if hasNl r2 then stripLCAux true r2 else '-' :: '-' :: r2 := by
              conv_lhs => unfold stripLCAux
              rw [if_pos (by decide)]
            by_cases hnl : hasNl r2 = true
            · have hnlcs : hasNl ('-' :: '-' :: r2) = true := by
                rw [hasNl_cons_ne _ _ (by decide), hasNl_cons_ne _ _ (by decide)]
                exact hnl
              have hafter : afterNl ('-' :: '-' :: r2) = afterNl r2 := by
                rw [afterNl_cons_ne _ _ (by decide), afterNl_cons_ne _ _ (by decide)]
              have hupto : upToNl ('-' :: '-' :: r2) = '-' :: '-' :: upToNl r2 := by
                rw [upToNl_cons_ne _ _ (by decide), upToNl_cons_ne _ _ (by decide)]
              have htd : truncDash ('-' :: '-' :: upToNl r2) = [] := by
                conv_lhs => unfold truncDash
                rw [if_pos (by decide)]
              rw [hdd, if_pos hnl, stripLCAux_true_nl r2 hnl,
                splitNl_nl _ hnlcs, hafter, hupto,
                mapInit_cons truncDash _ _ (splitNl_ne_nil (afterNl r2)),
                joinNl_cons _ _
                  (mapInit_ne_nil truncDash _ (splitNl_ne_nil (afterNl r2))),
                htd, ih (afterNl r2)
                  (by have := afterNl_length r2; simp at hlen; omega)]
              rfl
            · replace hnl : hasNl r2 = false := by simpa using hnl
              have hnlcs : hasNl ('-' :: '-' :: r2) = false := by
                rw [hasNl_cons_ne _ _ (by decide), hasNl_cons_ne _ _ (by decide)]
                exact hnl
              rw [hdd, if_neg (by simp [hnl]), splitNl_no_nl _ hnlcs]
              rfl
        · rw [stripLCAux_false_cons c r hcd, linesView_cons c r hc hcd,
            ih r (by simpa using hlen)]

theorem stripLC_eq_lines (cs : List Char) :
    stripLCAux false cs = joinNl (mapInit truncDash (splitNl cs)) :=
  stripLC_eq_lines_aux cs.length cs le_rfl

/-- Claim C1 counterexample: on this input the double-dash text lies on
the final line without a terminating newline; the claim reference strips
it (destroying the block-comment close marker), so the claim predicts
false, but isSelectQuery leaves it in place, strips the block comment, and
returns true. -/
theorem isSelectQuery_claim_counterexample :
    isSelectQuery "/* c -- c */ SELECT 1" = true ∧
    isSelectQuerySpecClaim "/* c -- c */ SELECT 1" = false :=
  ⟨by decide, by decide⟩

/-- Claim C1 (amended): isSelectQuery returns true exactly when, after
trimming, truncating each newline-terminated line at its first double dash
(a trailing double-dash comment not terminated by a newline is kept),
removing the non-nested block comments, and trimming again, the remaining
text begins with the case-insensitive keyword SELECT followed by a
whitespace character; in particular empty input returns false. -/
theorem isSelectQuery_eq_amended_spec :
    (∀ s : String, isSelectQuery s = isSelectQuerySpecAmended s) ∧
    isSelectQuery "" = false := by
  refine ⟨fun s => ?_, by decide⟩
  unfold isSelectQuery isSelectQuerySpecAmended isSelectQueryL isSelectQuerySpecAmendedL
  rw [stripLC_eq_lines (jsTrim s.data)]
